import Mathlib

/-!
Verification of the shotgunEvents event-dispatch engine against its
natural-language specification.

The Python sources under `src/src/` are shallowly embedded: Python dicts
become association lists kept in insertion order, wall-clock timestamps become
integers counted in minutes, user callback functions are abstracted by a
boolean outcome function saying whether they raise, and mutation is modelled
by explicit state passing.
-/

namespace ShotgunEvents

/-- A Shotgun event, restricted to the fields the engine inspects
(`engine.py` fetches `id`, `event_type`, `attribute_name`, `created_at`, ...).
`created_at` is a wall-clock timestamp in minutes; a Python `None`
`attribute_name` is modelled by the empty string (both are falsy). -/
structure Event where
  id : Nat
  event_type : String
  attribute_name : String
  created_at : Int
deriving DecidableEq, Repr

/-- The per-plugin backlog (`Plugin._backlog`): a Python dict from skipped
event id to expiration timestamp, kept in insertion order. -/
abbrev Backlog := List (Nat × Int)

namespace Backlog

/-- Python `k in d`. -/
def hasKey : Backlog → Nat → Bool
  | [], _ => false
  | kv :: rest, k => if kv.1 = k then true else hasKey rest k

/-- Python `d[k]` / `d.get(k)`. -/
def find : Backlog → Nat → Option Int
  | [], _ => none
  | kv :: rest, k => if kv.1 = k then some kv.2 else find rest k

/-- Python `d[k] = v`: overwrite in place, or append a new entry. -/
def insert : Backlog → Nat → Int → Backlog
  | [], k, v => [(k, v)]
  | kv :: rest, k, v => if kv.1 = k then (k, v) :: rest else kv :: insert rest k v

/-- Python `del d[k]` (total: a no-op when the key is absent). -/
def erase : Backlog → Nat → Backlog
  | [], _ => []
  | kv :: rest, k => if kv.1 = k then erase rest k else kv :: erase rest k

theorem find_insert_self (b : Backlog) (k : Nat) (v : Int) :
    (b.insert k v).find k = some v := by
  induction b with
  | nil => simp [insert, find]
  | cons kv rest ih =>
    by_cases h : kv.1 = k
    · simp [insert, find, h]
    · simp [insert, find, h, ih]

theorem find_insert_of_ne (b : Backlog) (k k2 : Nat) (v : Int) (h : k ≠ k2) :
    (b.insert k2 v).find k = b.find k := by
  induction b with
  | nil =>
    simp only [insert, find]
    rw [if_neg (fun hh : k2 = k => h hh.symm)]
  | cons kv rest ih =>
    by_cases h2 : kv.1 = k2
    · rw [show insert (kv :: rest) k2 v = (k2, v) :: rest from by simp [insert, h2]]
      show (if k2 = k then some v else find rest k) = _
      rw [if_neg (fun hh : k2 = k => h hh.symm)]
      show _ = (if kv.1 = k then some kv.2 else find rest k)
      rw [if_neg (fun hh : kv.1 = k => h (h2.symm.trans hh).symm)]
    · rw [show insert (kv :: rest) k2 v = kv :: insert rest k2 v from by simp [insert, h2]]
      show (if kv.1 = k then some kv.2 else (insert rest k2 v).find k) = _
      show _ = (if kv.1 = k then some kv.2 else find rest k)
      rw [ih]

theorem hasKey_insert (b : Backlog) (k k2 : Nat) (v : Int) :
    (b.insert k2 v).hasKey k = (b.hasKey k || decide (k2 = k)) := by
  induction b with
  | nil => simp [insert, hasKey]
  | cons kv rest ih =>
    by_cases h2 : kv.1 = k2
    · rw [show insert (kv :: rest) k2 v = (k2, v) :: rest from by simp [insert, h2]]
      show (if k2 = k then true else hasKey rest k) = _
      show _ = ((if kv.1 = k then true else hasKey rest k) || decide (k2 = k))
      subst h2
      by_cases hk : kv.1 = k <;> simp [hk]
    · rw [show insert (kv :: rest) k2 v = kv :: insert rest k2 v from by simp [insert, h2]]
      show (if kv.1 = k then true else (insert rest k2 v).hasKey k) = _
      show _ = ((if kv.1 = k then true else hasKey rest k) || decide (k2 = k))
      rw [ih]
      by_cases hk : kv.1 = k <;> simp [hk]

theorem hasKey_erase (b : Backlog) (k k0 : Nat) :
    (b.erase k0).hasKey k = (b.hasKey k && !decide (k0 = k)) := by
  induction b with
  | nil => simp [erase, hasKey]
  | cons kv rest ih =>
    by_cases h : kv.1 = k0
    · rw [show erase (kv :: rest) k0 = erase rest k0 from by simp [erase, h]]
      rw [ih]
      show _ = ((if kv.1 = k then true else hasKey rest k) && !decide (k0 = k))
      subst h
      by_cases hk : kv.1 = k <;> simp [hk]
    · rw [show erase (kv :: rest) k0 = kv :: erase rest k0 from by simp [erase, h]]
      show (if kv.1 = k then true else (erase rest k0).hasKey k) = _
      rw [ih]
      show _ = ((if kv.1 = k then true else hasKey rest k) && !decide (k0 = k))
      by_cases hk : kv.1 = k
      · have hne : ¬ k0 = k := fun hh => h (hk.symm ▸ hh.symm ▸ rfl)
        simp [hk, hne]
      · simp [hk]

end Backlog

/-- `BACKLOG_TIMEOUT` from `Plugin._updateLastEventId` (minutes). -/
def BACKLOG_TIMEOUT : Int := 5

/-- `Plugin._updateLastEventId` from `src/src/plugin.py`, acting on the
`(lastEventId, backlog)` cursor (the method is shared by `Plugin` and
`BatchPlugin` through inheritance).  `now` stands for the (close together)
`datetime.datetime.now()` calls in the method.  On a gap the skipped ids are
either discarded (gap older than the timeout) or inserted into the backlog;
then the cursor is set to the event id unconditionally. -/
def updateCursor (now : Int) (cur : Option Nat × Backlog) (e : Event) :
    Option Nat × Backlog :=
  (some e.id,
    match cur.1 with
    | some lastId =>
      if lastId + 1 < e.id then
        if e.created_at + BACKLOG_TIMEOUT < now then cur.2
        else (List.range' (lastId + 1) (e.id - lastId - 1)).foldl
          (fun b k => b.insert k (now + BACKLOG_TIMEOUT)) cur.2
      else cur.2
    | none => cur.2)

theorem updateCursor_fst (now : Int) (cur : Option Nat × Backlog) (e : Event) :
    (updateCursor now cur e).1 = some e.id := rfl

theorem foldl_insert_find (v : Int) (k : Nat) :
    ∀ (ks : List Nat) (b : Backlog),
      (ks.foldl (fun b k2 => b.insert k2 v) b).find k =
        if k ∈ ks then some v else b.find k := by
  intro ks
  induction ks with
  | nil => simp
  | cons k0 rest ih =>
    intro b
    rw [List.foldl_cons]
    by_cases hmem : k ∈ rest
    · rw [ih, if_pos hmem, if_pos (List.mem_cons_of_mem _ hmem)]
    · by_cases hk : k0 = k
      · subst hk
        rw [ih, if_neg hmem, Backlog.find_insert_self, if_pos (List.mem_cons_self _ _)]
      · have hk2 : k ≠ k0 := fun hh => hk hh.symm
        rw [ih, if_neg hmem, Backlog.find_insert_of_ne _ _ _ _ hk2,
          if_neg (by simp only [List.mem_cons, not_or]; exact ⟨hk2, hmem⟩)]

theorem foldl_insert_hasKey (v : Int) (k : Nat) :
    ∀ (ks : List Nat) (b : Backlog),
      (ks.foldl (fun b k2 => b.insert k2 v) b).hasKey k =
        (b.hasKey k || decide (k ∈ ks)) := by
  intro ks
  induction ks with
  | nil => simp
  | cons k0 rest ih =>
    intro b
    rw [List.foldl_cons, ih, Backlog.hasKey_insert]
    by_cases hk : k0 = k
    · by_cases hmem : k ∈ rest <;> simp [hk, hmem]
    · have hk2 : ¬ k = k0 := fun hh => hk hh.symm
      by_cases hmem : k ∈ rest <;> simp [hk, hk2, hmem]

theorem mem_range_aux (s n m : Nat) : m ∈ List.range' s n ↔ s ≤ m ∧ m < s + n := by
  induction n generalizing s with
  | zero => simp
  | succ n ih =>
    rw [List.range'_succ]
    simp only [List.mem_cons, ih]
    omega

/-- Keys of the backlog produced by `updateCursor` are either old keys or lie
strictly between the old cursor and the event id. -/
theorem updateCursor_hasKey (now : Int) (c1 : Option Nat) (b0 : Backlog) (e : Event) (k : Nat)
    (h : (updateCursor now (c1, b0) e).2.hasKey k = true) :
    b0.hasKey k = true ∨ ∃ l, c1 = some l ∧ l < k ∧ k < e.id := by
  cases c1 with
  | none => exact Or.inl h
  | some l =>
    by_cases hgap : l + 1 < e.id
    · by_cases hold : e.created_at + BACKLOG_TIMEOUT < now
      · refine Or.inl ?_
        simpa [updateCursor, hgap, hold] using h
      · have h2 := h
        simp only [updateCursor, hgap, hold, if_true, if_false, if_neg, if_pos] at h2
        rw [foldl_insert_hasKey] at h2
        simp only [Bool.or_eq_true, decide_eq_true_eq] at h2
        cases h2 with
        | inl h2 => exact Or.inl h2
        | inr h2 =>
          rw [mem_range_aux] at h2
          exact Or.inr ⟨l, rfl, by omega, by omega⟩
    · refine Or.inl ?_
      simpa [updateCursor, hgap] using h

/-- A `matchEvents` filter: a Python dict from event type (or the wildcard
`"*"`) to either `None` (all attributes) or a list of attribute names. -/
structure EventFilter where
  entries : List (String × Option (List String))
deriving DecidableEq, Repr

/-- Python `f[k]` / key lookup on the filter dict. -/
def EventFilter.find (f : EventFilter) (k : String) : Option (Option (List String)) :=
  (f.entries.find? (fun kv => kv.1 == k)).map (fun kv => kv.2)

/-- Python `k in f`. -/
def EventFilter.hasKey (f : EventFilter) (k : String) : Bool := (f.find k).isSome

/-- `Callback.canProcess` from `src/src/callback.py`.  `matchEvents = none`
models a Python `None` filter; an empty dict is also falsy, so both accept
every event.  When the wildcard key is present it is used even if the event's
own type is also a key.  The attribute check uses Python truthiness of
`event["attribute_name"]`. -/
def canProcess (matchEvents : Option EventFilter) (e : Event) : Bool :=
  match matchEvents with
  | none => true
  | some f =>
    if f.entries.isEmpty then true
    else
      match f.find (if f.hasKey "*" then "*" else e.event_type) with
      | none => false
      | some attributes =>
        match attributes with
        | none => true
        | some attrs =>
          if attrs.contains "*" then true
          else if e.attribute_name ≠ "" && attrs.contains e.attribute_name then true
          else false

/-- A registered callback (`Callback.__init__`).  The user function is
abstracted by `raises`, which says whether it throws on a given event id. -/
structure CallbackState where
  name : String
  matchEvents : Option EventFilter
  stopOnError : Bool
  active : Bool
  raises : Nat → Bool

/-- `Callback.process` from `src/src/callback.py`: run the user function,
catch any exception, deactivate on error when `stopOnError` is set; the
method's return value is the post-call `active` flag. -/
def cbProcess (cb : CallbackState) (e : Event) : CallbackState :=
  if cb.raises e.id && cb.stopOnError then { cb with active := false } else cb

/-- One dispatch: which callback received which event id. -/
structure DispatchRec where
  callbackName : String
  eventId : Nat
deriving DecidableEq, Repr

/-- The loop of `Plugin._process`: iterate callbacks in registration order,
skip inactive ones, dispatch to those whose filter matches, and `break` as
soon as one returns a false `active` flag.  Returns the updated callback
list, whether some callback failed (which deactivates the plugin), and the
dispatch trace. -/
def runCallbacks : List CallbackState → Event → List CallbackState × Bool × List DispatchRec
  | [], _ => ([], false, [])
  | cb :: rest, e =>
    if cb.active then
      if canProcess cb.matchEvents e then
        let cb2 := cbProcess cb e
        if cb2.active then
          let r := runCallbacks rest e
          (cb2 :: r.1, r.2.1, ⟨cb.name, e.id⟩ :: r.2.2)
        else (cb2 :: rest, true, [⟨cb.name, e.id⟩])
      else
        let r := runCallbacks rest e
        (cb :: r.1, r.2.1, r.2.2)
    else
      let r := runCallbacks rest e
      (cb :: r.1, r.2.1, r.2.2)

/-- The mutable state of a `Plugin` that event processing touches. -/
structure PluginState where
  lastEventId : Option Nat
  backlog : Backlog
  active : Bool
  callbacks : List CallbackState

/-- `Plugin._updateLastEventId` on the full plugin state. -/
def updateLastEventId (now : Int) (st : PluginState) (e : Event) : PluginState :=
  let c := updateCursor now (st.lastEventId, st.backlog) e
  { st with lastEventId := c.1, backlog := c.2 }

/-- `Plugin._process`: dispatch one event to the callbacks; returns the
updated plugin, the returned `self._active` flag, and the dispatch trace. -/
def pluginSubProcess (st : PluginState) (e : Event) : PluginState × Bool × List DispatchRec :=
  let r := runCallbacks st.callbacks e
  let newActive := if r.2.1 then false else st.active
  ({ st with callbacks := r.1, active := newActive }, newActive, r.2.2)

/-- `Plugin.process`: backlog replay, too-old drop, or normal dispatch. -/
def pluginProcess (now : Int) (st : PluginState) (e : Event) :
    PluginState × List DispatchRec :=
  if st.backlog.hasKey e.id then
    let r := pluginSubProcess st e
    if r.2.1 then
      (updateLastEventId now { r.1 with backlog := r.1.backlog.erase e.id } e, r.2.2)
    else (r.1, r.2.2)
  else if (match st.lastEventId with | some l => decide (e.id ≤ l) | none => false) then
    (st, [])
  else
    let r := pluginSubProcess st e
    if r.2.1 then (updateLastEventId now r.1 e, r.2.2) else (r.1, r.2.2)

/-- The option-minimum accumulation from `Plugin.getNextUnprocessedEventId`
(`elif nextId is None or k < nextId: nextId = k`). -/
def optMin (n : Option Nat) (k : Nat) : Option Nat :=
  match n with
  | none => some k
  | some m => if k < m then some k else some m

/-- The seed value of `nextId` in `Plugin.getNextUnprocessedEventId`.
Python truthiness is preserved: `if self._lastEventId:` treats both `None`
and `0` as false. -/
def nextIdSeed : Option Nat → Option Nat
  | some l => if l = 0 then none else some (l + 1)
  | none => none

/-- `Plugin.getNextUnprocessedEventId`: drop (and log) every expired backlog
key and compute the next id to ask for.  The in-place deletion loop is
modelled by a filter of the surviving keys followed by the minimum
accumulation over them, which visits the same keys in the same order. -/
def getNextUnprocessedEventId (now : Int) (st : PluginState) :
    PluginState × Option Nat :=
  let kept := st.backlog.filter (fun kv => !decide (kv.2 < now))
  let nextId := kept.foldl (fun n kv => optMin n kv.1) (nextIdSeed st.lastEventId)
  ({ st with backlog := kept }, nextId)

theorem pluginSubProcess_lastEventId (st : PluginState) (e : Event) :
    (pluginSubProcess st e).1.lastEventId = st.lastEventId := rfl

theorem updateLastEventId_lastEventId (now : Int) (st : PluginState) (e : Event) :
    (updateLastEventId now st e).lastEventId = some e.id := rfl

/-- Claim C2: after a successful dispatch of an event `e` with
`e.id > lastId + 1`, `Plugin._updateLastEventId` discards the skipped ids
when `now` exceeds `e.created_at` by more than `BACKLOG_TIMEOUT` (the backlog
is unchanged, so the ids are recorded nowhere and never retried); otherwise
it inserts every id in `[lastId+1, e.id-1]` into the backlog with expiration
`now + BACKLOG_TIMEOUT`; in both cases the cursor is then set to `e.id`. -/
theorem c2_gap_handling (now : Int) (st : PluginState) (e : Event) (lastId : Nat)
    (hl : st.lastEventId = some lastId) (hgap : lastId + 1 < e.id) :
    (updateLastEventId now st e).lastEventId = some e.id ∧
    (e.created_at + BACKLOG_TIMEOUT < now →
      (updateLastEventId now st e).backlog = st.backlog) ∧
    (¬ e.created_at + BACKLOG_TIMEOUT < now →
      ∀ k, lastId + 1 ≤ k → k < e.id →
        (updateLastEventId now st e).backlog.find k = some (now + BACKLOG_TIMEOUT)) := by
  refine ⟨rfl, ?_, ?_⟩
  · intro hold
    show (updateCursor now (st.lastEventId, st.backlog) e).2 = st.backlog
    rw [hl]
    simp [updateCursor, hgap, hold]
  · intro hold k hk1 hk2
    show (updateCursor now (st.lastEventId, st.backlog) e).2.find k = _
    rw [hl]
    simp only [updateCursor, if_pos hgap, if_neg hold]
    rw [foldl_insert_find, if_pos (by rw [mem_range_aux]; omega)]

/-- Tiny scenario witness for the gap handling claim: cursor 10, event 14
created at time 0, processed at time 2 (within the timeout). -/
theorem c2_gap_handling_witness :
    (updateLastEventId 2 ⟨some 10, [], true, []⟩ ⟨14, "t", "", 0⟩).lastEventId = some 14 ∧
    (updateLastEventId 2 ⟨some 10, [], true, []⟩ ⟨14, "t", "", 0⟩).backlog.find 12 =
      some (2 + BACKLOG_TIMEOUT) := by
  have h := c2_gap_handling 2 ⟨some 10, [], true, []⟩ ⟨14, "t", "", 0⟩ 10 rfl (by decide)
  exact ⟨h.1, h.2.2 (by decide) 12 (by decide) (by decide)⟩

/-- A callback that never raises, used by concrete scenarios. -/
def cbNeverRaises : CallbackState :=
  ⟨"ok", none, false, true, fun _ => false⟩

def c1State : PluginState := ⟨some 13, [(12, 100)], true, [cbNeverRaises]⟩

def c1Event : Event := ⟨12, "Shotgun_Shot_Change", "sg_status_list", 0⟩

/-- Claim C1 counterexample: with cursor 13 and backlog entry 12, successfully
replaying event 12 from the backlog sets the cursor back from 13 to 12, so
the sequence of `lastId` values across `process` calls is not non-decreasing. -/
theorem c1_counterexample :
    c1State.lastEventId = some 13 ∧
    (pluginProcess 0 c1State c1Event).1.lastEventId = some 12 := ⟨rfl, rfl⟩

/-- Claim C1 (amended): the `lastId` cursor is non-decreasing across
`Plugin.process` calls whose event is not taken from the backlog; a
successful backlog replay instead sets `lastId` to the replayed event's id,
which can be smaller than the current cursor. -/
theorem c1_monotone_nonbacklog (now : Int) (st : PluginState) (e : Event)
    (hnb : st.backlog.hasKey e.id = false) (l l2 : Nat)
    (hl : st.lastEventId = some l)
    (hl2 : (pluginProcess now st e).1.lastEventId = some l2) :
    l ≤ l2 := by
  unfold pluginProcess at hl2
  rw [hnb] at hl2
  rw [hl] at hl2
  simp only [Bool.false_eq_true, if_false] at hl2
  by_cases hle : e.id ≤ l
  · rw [if_pos (by simp [hle])] at hl2
    rw [hl] at hl2
    injection hl2 with hh
    omega
  · rw [if_neg (by simp [hle])] at hl2
    by_cases hok : (pluginSubProcess st e).2.1
    · rw [if_pos hok, updateLastEventId_lastEventId] at hl2
      have : l2 = e.id := by simpa using hl2.symm
      omega
    · rw [if_neg hok, pluginSubProcess_lastEventId, hl] at hl2
      have : l = l2 := by simpa using hl2
      omega

/-- Witness for the amended monotonicity claim: a fresh event 7 on cursor 5
advances the cursor, and 5 ≤ 7. -/
theorem c1_monotone_nonbacklog_witness : (5 : Nat) ≤ 7 :=
  c1_monotone_nonbacklog 0 ⟨some 5, [], true, []⟩ ⟨7, "t", "", 0⟩ rfl 5 7 rfl rfl

theorem optMin_ne_none (n : Option Nat) (k : Nat) : optMin n k ≠ none := by
  cases n with
  | none => simp [optMin]
  | some m =>
    simp only [optMin]
    split <;> simp

theorem optMin_le_left (n : Option Nat) (k j i : Nat)
    (h : optMin n k = some j) (hi : n = some i) : j ≤ i := by
  subst hi
  simp only [optMin] at h
  split at h <;> injection h with hh <;> omega

theorem optMin_le_right (n : Option Nat) (k j : Nat) (h : optMin n k = some j) : j ≤ k := by
  cases n with
  | none => injection h with hh; omega
  | some m =>
    simp only [optMin] at h
    split at h <;> injection h with hh <;> omega

theorem optMin_cases (n : Option Nat) (k j : Nat) (h : optMin n k = some j) :
    j = k ∨ n = some j := by
  cases n with
  | none => injection h with hh; exact Or.inl hh.symm
  | some m =>
    simp only [optMin] at h
    split at h <;> injection h with hh
    · exact Or.inl hh.symm
    · exact Or.inr (by rw [hh])

theorem foldl_optMin_none_iff :
    ∀ (l : List Nat) (init : Option Nat),
      l.foldl optMin init = none ↔ init = none ∧ l = [] := by
  intro l
  induction l with
  | nil => intro init; simp
  | cons k rest ih =>
    intro init
    rw [List.foldl_cons, ih]
    simp [optMin_ne_none]

theorem foldl_optMin_spec :
    ∀ (l : List Nat) (init : Option Nat) (m : Nat), l.foldl optMin init = some m →
      (init = some m ∨ m ∈ l) ∧ (∀ j, init = some j → m ≤ j) ∧ (∀ k ∈ l, m ≤ k) := by
  intro l
  induction l with
  | nil =>
    intro init m h
    simp only [List.foldl_nil] at h
    refine ⟨Or.inl h, fun j hj => ?_, by simp⟩
    rw [h] at hj
    injection hj with hh
    omega
  | cons k rest ih =>
    intro init m h
    rw [List.foldl_cons] at h
    obtain ⟨hmem, hinit, hrest⟩ := ih _ _ h
    obtain ⟨j0, hj0⟩ : ∃ j0, optMin init k = some j0 := by
      cases ho : optMin init k with
      | none => exact absurd ho (optMin_ne_none _ _)
      | some j0 => exact ⟨j0, rfl⟩
    have hmk : m ≤ k := le_trans (hinit _ hj0) (optMin_le_right _ _ _ hj0)
    refine ⟨?_, ?_, ?_⟩
    · cases hmem with
      | inl hm =>
        cases optMin_cases _ _ _ hm with
        | inl hk => exact Or.inr (by rw [hk]; exact List.mem_cons_self _ _)
        | inr hin => exact Or.inl hin
      | inr hm => exact Or.inr (List.mem_cons_of_mem _ hm)
    · intro j hj
      by_cases hkj : k < j
      · have h2 : optMin init k = some k := by
          rw [hj]; simp only [optMin]; rw [if_pos hkj]
        exact le_trans (hinit _ h2) (by omega)
      · have h2 : optMin init k = some j := by
          rw [hj]; simp only [optMin]; rw [if_neg hkj]
        exact hinit _ h2
    · intro x hx
      cases List.mem_cons.mp hx with
      | inl hxk => rw [hxk]; exact hmk
      | inr hxr => exact hrest _ hxr

def c3State : PluginState := ⟨none, [(5, 10)], true, []⟩

/-- Claim C3 counterexample: with a null cursor but a live (non-expired)
backlog entry, `getNextUnprocessedEventId` returns the least surviving
backlog key, not none as the claim states. -/
theorem c3_counterexample :
    c3State.lastEventId = none ∧ (getNextUnprocessedEventId 3 c3State).2 = some 5 :=
  ⟨rfl, rfl⟩

/-- Claim C3 (amended): `getNextUnprocessedEventId` removes exactly the
backlog entries whose expiration is before `now`, leaves the cursor alone,
and returns the minimum of `lastId + 1` (counted only when `lastId` is a
truthy integer, i.e. neither null nor zero) and the surviving backlog keys.
It returns none exactly when `lastId` is null or zero and no backlog key
survives; in particular with a null cursor and a surviving backlog key it
returns the least such key rather than none. -/
theorem nextIdSeed_eq_none (o : Option Nat) :
    nextIdSeed o = none ↔ o = none ∨ o = some 0 := by
  cases o with
  | none => simp [nextIdSeed]
  | some l =>
    by_cases hl0 : l = 0 <;> simp [nextIdSeed, hl0]

theorem nextIdSeed_eq_some (o : Option Nat) (j : Nat) :
    nextIdSeed o = some j ↔ ∃ l, o = some l ∧ l ≠ 0 ∧ j = l + 1 := by
  cases o with
  | none => simp [nextIdSeed]
  | some l =>
    by_cases hl0 : l = 0 <;> simp [nextIdSeed, hl0, eq_comm]

theorem c3_next_unprocessed (now : Int) (st : PluginState) :
    ((getNextUnprocessedEventId now st).1.lastEventId = st.lastEventId) ∧
    (∀ kv : Nat × Int, kv ∈ (getNextUnprocessedEventId now st).1.backlog ↔
        kv ∈ st.backlog ∧ ¬ kv.2 < now) ∧
    ((getNextUnprocessedEventId now st).2 = none ↔
      ((st.lastEventId = none ∨ st.lastEventId = some 0) ∧
        ∀ kv ∈ st.backlog, kv.2 < now)) ∧
    (∀ m, (getNextUnprocessedEventId now st).2 = some m →
      ((∃ l, st.lastEventId = some l ∧ l ≠ 0 ∧ m = l + 1) ∨
        (∃ v, (m, v) ∈ st.backlog ∧ ¬ v < now)) ∧
      (∀ l, st.lastEventId = some l → l ≠ 0 → m ≤ l + 1) ∧
      (∀ kv ∈ st.backlog, ¬ kv.2 < now → m ≤ kv.1)) := by
  have hfold : (getNextUnprocessedEventId now st).2 =
      ((st.backlog.filter (fun kv => !decide (kv.2 < now))).map (fun kv => kv.1)).foldl
        optMin (nextIdSeed st.lastEventId) := by
    rw [List.foldl_map]
    rfl
  refine ⟨rfl, ?_, ?_, ?_⟩
  · intro kv
    show kv ∈ st.backlog.filter (fun kv => !decide (kv.2 < now)) ↔ _
    rw [List.mem_filter]
    simp
  · rw [hfold, foldl_optMin_none_iff, nextIdSeed_eq_none]
    constructor
    · rintro ⟨h1, h2⟩
      refine ⟨h1, ?_⟩
      intro kv hkv
      by_contra hno
      have hin : kv ∈ st.backlog.filter (fun kv => !decide (kv.2 < now)) :=
        List.mem_filter.mpr ⟨hkv, by simpa using hno⟩
      rw [List.map_eq_nil_iff] at h2
      rw [h2] at hin
      simp at hin
    · rintro ⟨h1, h2⟩
      refine ⟨h1, ?_⟩
      rw [List.map_eq_nil_iff, List.filter_eq_nil_iff]
      intro kv hkv
      simpa using h2 kv hkv
  · intro m hm
    rw [hfold] at hm
    obtain ⟨hmem, hinit, hbound⟩ := foldl_optMin_spec _ _ _ hm
    refine ⟨?_, ?_, ?_⟩
    · cases hmem with
      | inl h =>
        obtain ⟨l, hl, hl0, hml⟩ := (nextIdSeed_eq_some _ _).mp h
        exact Or.inl ⟨l, hl, hl0, hml⟩
      | inr h =>
        obtain ⟨kv, hkv, hkvm⟩ := List.mem_map.mp h
        obtain ⟨hkv1, hkv2⟩ := List.mem_filter.mp hkv
        refine Or.inr ⟨kv.2, ?_, by simpa using hkv2⟩
        rw [← hkvm, Prod.mk.eta]
        exact hkv1
    · intro l hl hl0
      apply hinit
      rw [nextIdSeed_eq_some]
      exact ⟨l, hl, hl0, rfl⟩
    · intro kv hkv hlive
      apply hbound
      exact List.mem_map.mpr ⟨kv, List.mem_filter.mpr ⟨hkv, by simpa using hlive⟩, rfl⟩

/-- Witness for the amended claim: cursor 2 with a live backlog entry 7 at
time 0 yields next id 3, a lower bound of the surviving keys. -/
theorem c3_next_unprocessed_witness :
    (getNextUnprocessedEventId 0 ⟨some 2, [(7, 100)], true, []⟩).2 = some 3 ∧
    (∀ kv ∈ ([(7, 100)] : Backlog), ¬ kv.2 < (0 : Int) → 3 ≤ kv.1) := by
  have h := c3_next_unprocessed 0 ⟨some 2, [(7, 100)], true, []⟩
  exact ⟨rfl, (h.2.2.2 3 rfl).2.2⟩

/-- A plugin collection (`PluginCollection` from `src/src/pluginCollection.py`):
named plugins in iteration (basename-sorted) order, plus the `_stateData`
mapping from plugin name to persisted `(lastId, backlog)` state. -/
structure Collection where
  plugins : List (String × PluginState)
  stateData : List (String × (Option Nat × Backlog))

/-- `PluginCollection.process`: dispatch one event to every active plugin in
order; inactive plugins are skipped (with a debug log). -/
def collectionProcess (now : Int) (c : Collection) (e : Event) :
    Collection × List (String × List DispatchRec) :=
  let r := c.plugins.foldl
    (fun (acc : List (String × PluginState) × List (String × List DispatchRec)) np =>
      if np.2.active then
        let pr := pluginProcess now np.2 e
        (acc.1 ++ [(np.1, pr.1)], acc.2 ++ [(np.1, pr.2)])
      else (acc.1 ++ [np], acc.2))
    ([], [])
  (⟨r.1, c.stateData⟩, r.2)

/-- The `break` behaviour of `Plugin._process`: when callback `A` is reached
(all earlier callbacks being skipped or succeeding), is active, matches, and
fails with `stopOnError`, iteration stops at `A`.  The callbacks after `A`
are untouched and receive nothing. -/
theorem runCallbacks_break (e : Event) (A : CallbackState) (post : List CallbackState)
    (hA : A.active = true) (hAc : canProcess A.matchEvents e = true)
    (hAf : (A.raises e.id && A.stopOnError) = true) :
    ∀ pre : List CallbackState,
      (∀ cb ∈ pre, cb.active = true → canProcess cb.matchEvents e = true →
        (cb.raises e.id && cb.stopOnError) = false) →
      runCallbacks (pre ++ A :: post) e =
        ((runCallbacks pre e).1 ++ { A with active := false } :: post, true,
          (runCallbacks pre e).2.2 ++ [⟨A.name, e.id⟩]) := by
  intro pre
  induction pre with
  | nil =>
    intro _
    have hcb2 : cbProcess A e = { A with active := false } := by
      simp [cbProcess, hAf]
    simp [runCallbacks, hA, hAc, hcb2]
  | cons cb rest ih =>
    intro hpre
    have hrest : ∀ cb2 ∈ rest, cb2.active = true → canProcess cb2.matchEvents e = true →
        (cb2.raises e.id && cb2.stopOnError) = false :=
      fun cb2 h2 => hpre cb2 (List.mem_cons_of_mem _ h2)
    have hih := ih hrest
    by_cases hcba : cb.active = true
    · by_cases hcbc : canProcess cb.matchEvents e = true
      · have hfail := hpre cb (List.mem_cons_self _ _) hcba hcbc
        have hcb2 : cbProcess cb e = cb := by simp [cbProcess, hfail]
        show runCallbacks (cb :: (rest ++ A :: post)) e = _
        simp only [runCallbacks, hcba, hcbc, if_true, hcb2, hih]
        simp [hcba]
      · show runCallbacks (cb :: (rest ++ A :: post)) e = _
        simp only [runCallbacks, hcba, hcbc, if_true, if_false, hih]
        simp
    · show runCallbacks (cb :: (rest ++ A :: post)) e = _
      simp only [runCallbacks, hcba, if_false, hih]
      simp

def c4CbA : CallbackState := ⟨"A", none, true, true, fun i => i == 20⟩

def c4CbB : CallbackState := ⟨"B", none, false, true, fun _ => false⟩

def c4State : PluginState := ⟨some 19, [], true, [c4CbA, c4CbB]⟩

def c4Event : Event := ⟨20, "Shotgun_Version_New", "", 0⟩

/-- Claim C4 counterexample: callback A (`stopOnError=true`) raises on event
20; callback B is registered after it.  The dispatch trace contains only A,
so B never receives event 20; the plugin is deactivated and `lastId` stays
at 19 instead of advancing to 20. -/
theorem c4_counterexample :
    (pluginProcess 0 c4State c4Event).2 = [⟨"A", 20⟩] ∧
    (pluginProcess 0 c4State c4Event).1.active = false ∧
    (pluginProcess 0 c4State c4Event).1.lastEventId = some 19 := ⟨rfl, rfl, rfl⟩

/-- Claim C4 (amended): if a callback A with `stopOnError=true` raises while
processing event `e` (earlier callbacks in the plugin having been skipped or
succeeded, and `e` not being dropped as too old), then A is deactivated, the
whole plugin is deactivated, callbacks after A do not receive `e`, `lastId`
does not advance, and, the plugin now being inactive, the collection skips
it entirely on later events. -/
theorem c4_stop_on_error (now : Int) (st : PluginState) (e : Event)
    (pre post : List CallbackState) (A : CallbackState)
    (hcb : st.callbacks = pre ++ A :: post)
    (hpre : ∀ cb ∈ pre, cb.active = true → canProcess cb.matchEvents e = true →
        (cb.raises e.id && cb.stopOnError) = false)
    (hA : A.active = true) (hAc : canProcess A.matchEvents e = true)
    (hAr : A.raises e.id = true) (hAs : A.stopOnError = true)
    (hfresh : (match st.lastEventId with
      | some l => decide (e.id ≤ l)
      | none => false) = false) :
    (pluginProcess now st e).1.active = false ∧
    (pluginProcess now st e).1.lastEventId = st.lastEventId ∧
    (pluginProcess now st e).1.callbacks =
      (runCallbacks pre e).1 ++ { A with active := false } :: post ∧
    (pluginProcess now st e).2 = (runCallbacks pre e).2.2 ++ [⟨A.name, e.id⟩] ∧
    (∀ now2 e2, (collectionProcess now2 ⟨[("p", (pluginProcess now st e).1)], []⟩ e2).2
      = []) := by
  have hAf : (A.raises e.id && A.stopOnError) = true := by rw [hAr, hAs]; rfl
  have hrun : runCallbacks st.callbacks e =
      ((runCallbacks pre e).1 ++ { A with active := false } :: post, true,
        (runCallbacks pre e).2.2 ++ [⟨A.name, e.id⟩]) := by
    rw [hcb]
    exact runCallbacks_break e A post hA hAc hAf pre hpre
  have hsub : pluginSubProcess st e =
      ({ st with
          callbacks := ((runCallbacks pre e).1 ++ ({ A with active := false } :: post)),
          active := false }, false,
        (runCallbacks pre e).2.2 ++ [⟨A.name, e.id⟩]) := by
    simp [pluginSubProcess, hrun]
  have hmain : pluginProcess now st e =
      ({ st with
          callbacks := ((runCallbacks pre e).1 ++ ({ A with active := false } :: post)),
          active := false },
        (runCallbacks pre e).2.2 ++ [⟨A.name, e.id⟩]) := by
    unfold pluginProcess
    by_cases hkey : st.backlog.hasKey e.id = true
    · rw [if_pos hkey, hsub]
      simp
    · rw [if_neg hkey, if_neg (by rw [hfresh]; simp), hsub]
      simp
  refine ⟨by rw [hmain], by rw [hmain], by rw [hmain], by rw [hmain], ?_⟩
  intro now2 e2
  have hact : (pluginProcess now st e).1.active = false := by rw [hmain]
  simp [collectionProcess, hact]

/-- Witness: the StopOnError scenario at concrete values, through the
amended theorem. -/
theorem c4_stop_on_error_witness :
    (pluginProcess 0 c4State c4Event).1.callbacks =
      (runCallbacks [] c4Event).1 ++ { c4CbA with active := false } :: [c4CbB] ∧
    (pluginProcess 0 c4State c4Event).2 =
      (runCallbacks [] c4Event).2.2 ++ [⟨"A", 20⟩] ∧
    (∀ now2 e2, (collectionProcess now2 ⟨[("p", (pluginProcess 0 c4State c4Event).1)], []⟩ e2).2
      = []) := by
  have h := c4_stop_on_error 0 c4State c4Event [] [c4CbB] c4CbA rfl (by simp)
    rfl rfl rfl rfl rfl
  exact ⟨h.2.2.1, h.2.2.2.1, h.2.2.2.2⟩

def c5Filter : EventFilter := ⟨[("A", some ["x"]), ("*", some ["y"])]⟩

def c5Event : Event := ⟨1, "A", "x", 0⟩

/-- The claim's reading of the filter-match condition: an entry among the
event-type entry and the wildcard entry exists whose attribute-set is
all-attributes or contains the event's attribute name. -/
def specFilterMatches (f : EventFilter) (e : Event) : Prop :=
  ∃ attrs, (f.find e.event_type = some attrs ∨ f.find "*" = some attrs) ∧
    (attrs = none ∨ ∃ l, attrs = some l ∧ ("*" ∈ l ∨ e.attribute_name ∈ l))

/-- Claim C5 counterexample: for the filter `{"A": {"x"}, "*": {"y"}}` and an
event with event_type `"A"` and attribute_name `"x"`, the claim's condition
holds through the event-type entry, but `canProcess` returns false because
the wildcard entry takes priority over the event-type entry. -/
theorem c5_counterexample :
    canProcess (some c5Filter) c5Event = false ∧ specFilterMatches c5Filter c5Event := by
  refine ⟨by decide, ⟨some ["x"], Or.inl rfl, Or.inr ⟨["x"], rfl, Or.inr ?_⟩⟩⟩
  simp [c5Event]

/-- How an attribute entry of the filter admits an event, following the code:
all-attributes is a Python `None` or a set containing `"*"`; otherwise the
event's attribute name must be truthy (non-empty) and a member. -/
def entryAllows : Option (Option (List String)) → Event → Prop
  | none, _ => False
  | some none, _ => True
  | some (some attrs), e => "*" ∈ attrs ∨ (e.attribute_name ≠ "" ∧ e.attribute_name ∈ attrs)

/-- Claim C5 (amended): for a non-empty filter F, `canProcess(e)` returns
true iff the selected entry — the wildcard entry whenever the wildcard key
is present, otherwise the entry for `e.event_type` — exists and admits the
event: its attribute-set is all-attributes (Python `None`, or a set
containing `"*"`), or the event's attribute name is non-empty and a member
of the set. -/
theorem c5_filter_match (f : EventFilter) (e : Event) (hne : f.entries ≠ []) :
    canProcess (some f) e = true ↔
      ((f.hasKey "*" = true ∧ entryAllows (f.find "*") e) ∨
        (f.hasKey "*" = false ∧ entryAllows (f.find e.event_type) e)) := by
  have hemp : f.entries.isEmpty = false := by
    cases hl : f.entries with
    | nil => exact absurd hl hne
    | cons a l => rfl
  show (if f.entries.isEmpty then true
    else match f.find (if f.hasKey "*" then "*" else e.event_type) with
      | none => false
      | some attributes =>
        match attributes with
        | none => true
        | some attrs =>
          if attrs.contains "*" then true
          else if e.attribute_name ≠ "" && attrs.contains e.attribute_name then true
          else false) = true ↔ _
  rw [hemp]
  simp only [Bool.false_eq_true, if_false]
  by_cases hw : f.hasKey "*" = true
  · rw [if_pos (by rw [hw])]
    cases hfind : f.find "*" with
    | none => exact absurd hw (by simp [EventFilter.hasKey, hfind])
    | some attributes =>
      cases attributes with
      | none =>
        constructor
        · intro _
          exact Or.inl ⟨hw, trivial⟩
        · intro _
          rfl
      | some attrs =>
        show (if attrs.contains "*" = true then true
          else if (decide (e.attribute_name ≠ "") && attrs.contains e.attribute_name) = true
            then true else false) = true ↔ _
        by_cases hstar : attrs.contains "*" = true
        · rw [if_pos hstar]
          constructor
          · intro _
            exact Or.inl ⟨hw, Or.inl (by simpa using hstar)⟩
          · intro _
            rfl
        · by_cases hattr : (decide (e.attribute_name ≠ "") && attrs.contains e.attribute_name)
              = true
          · rw [if_neg hstar, if_pos hattr]
            simp only [Bool.and_eq_true, decide_eq_true_eq] at hattr
            constructor
            · intro _
              exact Or.inl ⟨hw, Or.inr ⟨hattr.1, by simpa using hattr.2⟩⟩
            · intro _
              rfl
          · rw [if_neg hstar, if_neg hattr]
            simp only [Bool.and_eq_true, decide_eq_true_eq, not_and] at hattr
            constructor
            · intro hfalse
              exact absurd hfalse (by simp)
            · rintro (⟨h1, h2⟩ | ⟨h1, h2⟩)
              · cases h2 with
                | inl h2 => exact absurd (show attrs.contains "*" = true by simpa using h2) hstar
                | inr h2 =>
                  exact absurd (show attrs.contains e.attribute_name = true by
                    simpa using h2.2) (hattr h2.1)
              · rw [hw] at h1
                exact absurd h1 (by simp)
  · have hw2 : f.hasKey "*" = false := by
      cases hb : f.hasKey "*" with
      | false => rfl
      | true => exact absurd hb hw
    rw [if_neg (by rw [hw2]; simp)]
    cases hfind : f.find e.event_type with
    | none =>
      constructor
      · intro hfalse
        exact absurd hfalse (by simp)
      · rintro (⟨h1, h2⟩ | ⟨h1, h2⟩)
        · exact absurd h1 hw
        · exact False.elim h2
    | some attributes =>
      cases attributes with
      | none =>
        constructor
        · intro _
          exact Or.inr ⟨hw2, trivial⟩
        · intro _
          rfl
      | some attrs =>
        show (if attrs.contains "*" = true then true
          else if (decide (e.attribute_name ≠ "") && attrs.contains e.attribute_name) = true
            then true else false) = true ↔ _
        by_cases hstar : attrs.contains "*" = true
        · rw [if_pos hstar]
          constructor
          · intro _
            exact Or.inr ⟨hw2, Or.inl (by simpa using hstar)⟩
          · intro _
            rfl
        · by_cases hattr : (decide (e.attribute_name ≠ "") && attrs.contains e.attribute_name)
              = true
          · rw [if_neg hstar, if_pos hattr]
            simp only [Bool.and_eq_true, decide_eq_true_eq] at hattr
            constructor
            · intro _
              exact Or.inr ⟨hw2, Or.inr ⟨hattr.1, by simpa using hattr.2⟩⟩
            · intro _
              rfl
          · rw [if_neg hstar, if_neg hattr]
            simp only [Bool.and_eq_true, decide_eq_true_eq, not_and] at hattr
            constructor
            · intro hfalse
              exact absurd hfalse (by simp)
            · rintro (⟨h1, h2⟩ | ⟨h1, h2⟩)
              · rw [h1] at hw
                exact (hw rfl).elim
              · cases h2 with
                | inl h2 => exact absurd (show attrs.contains "*" = true by simpa using h2) hstar
                | inr h2 =>
                  exact absurd (show attrs.contains e.attribute_name = true by
                    simpa using h2.2) (hattr h2.1)

/-- Witness: a filter with only an all-attributes entry for event_type "A"
matches an event of that type. -/
theorem c5_filter_match_witness :
    canProcess (some ⟨[("A", none)]⟩) ⟨1, "A", "", 0⟩ = true ↔
      ((EventFilter.hasKey ⟨[("A", none)]⟩ "*" = true ∧
          entryAllows (EventFilter.find ⟨[("A", none)]⟩ "*") ⟨1, "A", "", 0⟩) ∨
        (EventFilter.hasKey ⟨[("A", none)]⟩ "*" = false ∧
          entryAllows (EventFilter.find ⟨[("A", none)]⟩ "A") ⟨1, "A", "", 0⟩)) :=
  c5_filter_match ⟨[("A", none)]⟩ ⟨1, "A", "", 0⟩ (by simp)

/-- The `None`-aware minimum used by `PluginCollection.getNextUnprocessedEventId`
and `Engine._getNewEvents` (`if newId is not None and (eId is None or newId < eId)`). -/
def combineMin (incoming acc : Option Nat) : Option Nat :=
  match incoming, acc with
  | none, a => a
  | some n, none => some n
  | some n, some m => if n < m then some n else some m

/-- The loop of `PluginCollection.getNextUnprocessedEventId`: inactive
plugins are skipped; each active plugin is asked for its next id (which
trims its expired backlog keys as a side effect) and the minimum of the
answers is kept.  The running minimum of the source loop is regrouped here
by structural recursion; the resulting value is the same minimum. -/
def collectionNextLoop (now : Int) :
    List (String × PluginState) → List (String × PluginState) × Option Nat
  | [] => ([], none)
  | np :: rest =>
    if np.2.active then
      let pr := getNextUnprocessedEventId now np.2
      let r := collectionNextLoop now rest
      ((np.1, pr.1) :: r.1, combineMin pr.2 r.2)
    else
      let r := collectionNextLoop now rest
      (np :: r.1, r.2)

/-- `PluginCollection.getNextUnprocessedEventId`. -/
def collectionNextUnprocessedEventId (now : Int) (c : Collection) :
    Collection × Option Nat :=
  let r := collectionNextLoop now c.plugins
  (⟨r.1, c.stateData⟩, r.2)

/-- The next-id computation over all collections at the top of
`Engine._getNewEvents`. -/
def engineNextLoop (now : Int) : List Collection → List Collection × Option Nat
  | [] => ([], none)
  | c :: rest =>
    let cr := collectionNextUnprocessedEventId now c
    let r := engineNextLoop now rest
    (cr.1 :: r.1, combineMin cr.2 r.2)

/-- One attempted upstream `find` call, as `Engine._getNewEvents` sees it:
a batch of events, or one of the caught failure kinds. -/
inductive FetchResult where
  | ok (events : List Event)
  | protocolError (msg : String)
  | responseError (msg : String)
  | socketError (msg : String)
  | unknownError (msg : String)

def FetchResult.isFailure : FetchResult → Bool
  | .ok _ => false
  | _ => true

/-- Observable effects of the retry loop: log lines and the retry sleep. -/
inductive LogRec where
  | warning (attempt : Nat)
  | error (attempt : Nat)
  | sleepRetry
deriving DecidableEq, Repr

/-- `Engine._writeConnectionAttemptLog`: log at error and sleep
`conn_retry_sleep` on the final attempt (`conn_attempts == maxConnRetries-1`),
log at warning otherwise. -/
def writeConnectionAttemptLog (maxConnRetries attempt : Nat) : List LogRec :=
  if attempt = maxConnRetries - 1 then [.error attempt, .sleepRetry]
  else [.warning attempt]

/-- The `for conn_attempts in range(maxConnRetries)` retry loop of
`Engine._getNewEvents`: a successful attempt returns its events at once; a
failing attempt (protocol, response, socket or unknown error) logs and the
loop continues; an exhausted loop falls through to `return []`. -/
def fetchAttemptLoop (maxConnRetries : Nat) (attempts : Nat → FetchResult) :
    List Nat → List Event × List LogRec
  | [] => ([], [])
  | i :: rest =>
    match attempts i with
    | .ok events => (events, [])
    | _ =>
      let r := fetchAttemptLoop maxConnRetries attempts rest
      (r.1, writeConnectionAttemptLog maxConnRetries i ++ r.2)

/-- `Engine._getNewEvents`: compute the next id to fetch over all plugin
collections (trimming expired backlog keys as a side effect); when no plugin
offers an id, do nothing; otherwise run the retry loop. -/
def getNewEvents (now : Int) (maxConnRetries : Nat) (attempts : Nat → FetchResult)
    (colls : List Collection) : List Collection × List Event × List LogRec :=
  let r := engineNextLoop now colls
  match r.2 with
  | none => (r.1, [], [])
  | some _ =>
    let f := fetchAttemptLoop maxConnRetries attempts (List.range maxConnRetries)
    (r.1, f.1, f.2)

theorem collectionNextLoop_fst (now : Int) :
    ∀ ps : List (String × PluginState),
      (collectionNextLoop now ps).1 = ps.map (fun np =>
        if np.2.active then
          (np.1, { np.2 with backlog := np.2.backlog.filter (fun kv => !decide (kv.2 < now)) })
        else np) := by
  intro ps
  induction ps with
  | nil => rfl
  | cons np rest ih =>
    simp only [collectionNextLoop, List.map_cons]
    by_cases ha : np.2.active = true
    · rw [if_pos ha, if_pos ha]
      simp only [ih]
      rfl
    · rw [if_neg ha, if_neg ha]
      simp only [ih]

theorem collectionNext_state (now : Int) (c : Collection) :
    (collectionNextUnprocessedEventId now c).1 =
      ⟨c.plugins.map (fun np =>
        if np.2.active then
          (np.1, { np.2 with backlog := np.2.backlog.filter (fun kv => !decide (kv.2 < now)) })
        else np), c.stateData⟩ := by
  show (⟨(collectionNextLoop now c.plugins).1, c.stateData⟩ : Collection) = _
  rw [collectionNextLoop_fst]

theorem engineNextLoop_fst (now : Int) :
    ∀ colls : List Collection,
      (engineNextLoop now colls).1 =
        colls.map (fun c => (collectionNextUnprocessedEventId now c).1) := by
  intro colls
  induction colls with
  | nil => rfl
  | cons c rest ih =>
    simp only [engineNextLoop, List.map_cons, ih]

theorem fetchAttemptLoop_all_fail (maxConnRetries : Nat) (attempts : Nat → FetchResult) :
    ∀ l : List Nat, (∀ i ∈ l, (attempts i).isFailure = true) →
      fetchAttemptLoop maxConnRetries attempts l =
        ([], l.foldr (fun i acc => writeConnectionAttemptLog maxConnRetries i ++ acc) []) := by
  intro l
  induction l with
  | nil => intro _; rfl
  | cons i rest ih =>
    intro hf
    have hi := hf i (List.mem_cons_self _ _)
    have hrest := fun j hj => hf j (List.mem_cons_of_mem _ hj)
    simp only [fetchAttemptLoop, List.foldr_cons]
    cases hatt : attempts i with
    | ok evs =>
      rw [hatt] at hi
      exact absurd hi (by simp [FetchResult.isFailure])
    | protocolError m =>
      show ((fetchAttemptLoop maxConnRetries attempts rest).1,
        writeConnectionAttemptLog maxConnRetries i ++
          (fetchAttemptLoop maxConnRetries attempts rest).2) = _
      rw [ih hrest]
    | responseError m =>
      show ((fetchAttemptLoop maxConnRetries attempts rest).1,
        writeConnectionAttemptLog maxConnRetries i ++
          (fetchAttemptLoop maxConnRetries attempts rest).2) = _
      rw [ih hrest]
    | socketError m =>
      show ((fetchAttemptLoop maxConnRetries attempts rest).1,
        writeConnectionAttemptLog maxConnRetries i ++
          (fetchAttemptLoop maxConnRetries attempts rest).2) = _
      rw [ih hrest]
    | unknownError m =>
      show ((fetchAttemptLoop maxConnRetries attempts rest).1,
        writeConnectionAttemptLog maxConnRetries i ++
          (fetchAttemptLoop maxConnRetries attempts rest).2) = _
      rw [ih hrest]

theorem foldr_writeLog_range (maxConnRetries : Nat) (hpos : 1 ≤ maxConnRetries) :
    (List.range maxConnRetries).foldr
        (fun i acc => writeConnectionAttemptLog maxConnRetries i ++ acc) [] =
      (List.range (maxConnRetries - 1)).map LogRec.warning ++
        [LogRec.error (maxConnRetries - 1), LogRec.sleepRetry] := by
  obtain ⟨k, rfl⟩ : ∃ k, maxConnRetries = k + 1 := ⟨maxConnRetries - 1, by omega⟩
  rw [List.range_succ, List.foldr_append]
  simp only [List.foldr_cons, List.foldr_nil, Nat.add_sub_cancel]
  have hlast : writeConnectionAttemptLog (k + 1) k ++ [] =
      [LogRec.error k, LogRec.sleepRetry] := by
    simp [writeConnectionAttemptLog]
  rw [hlast]
  have hgen : ∀ (l : List Nat) (X : List LogRec), (∀ i ∈ l, i ≠ k) →
      l.foldr (fun i acc => writeConnectionAttemptLog (k + 1) i ++ acc) X =
        l.map LogRec.warning ++ X := by
    intro l
    induction l with
    | nil => intro X _; rfl
    | cons i rest ih2 =>
      intro X hne
      rw [List.foldr_cons, ih2 _ (fun j hj => hne j (List.mem_cons_of_mem _ hj))]
      have hi : writeConnectionAttemptLog (k + 1) i = [LogRec.warning i] := by
        simp only [writeConnectionAttemptLog, Nat.add_sub_cancel]
        rw [if_neg (hne i (List.mem_cons_self _ _))]
      rw [hi]
      simp
  rw [hgen _ _ (fun i hi => by have := List.mem_range.mp hi; omega)]

def c6Colls : List Collection := [⟨[("p", ⟨some 10, [(5, 0)], true, []⟩)], []⟩]

/-- Claim C6 counterexample: every attempt fails and the fetch returns an
empty batch, yet a plugin's backlog has changed during the fetch: its
expired key 5 was removed while the next id to ask for was computed. -/
theorem c6_counterexample :
    (getNewEvents 1 1 (fun _ => FetchResult.socketError "down") c6Colls).2.1 = [] ∧
    ((getNewEvents 1 1 (fun _ => FetchResult.socketError "down") c6Colls).1.map
      (fun c => c.plugins.map (fun np => np.2.backlog))) = [[[]]] ∧
    (c6Colls.map (fun c => c.plugins.map (fun np => np.2.backlog))) = [[[(5, 0)]]] :=
  ⟨rfl, rfl, rfl⟩

/-- Claim C6 (amended): a fetch whose `maxConnRetries` attempts all fail
(protocol, response, socket, or unknown error) returns an empty batch;
every attempt before the last is logged at warning and the final one at
error followed by the `conn_retry_sleep` sleep; no plugin's `lastId` (nor
anything else, the active flag and callbacks included) changes, except that
active plugins lose exactly their expired backlog keys while the next id to
fetch is computed. -/
theorem c6_fetch_exhausted (now : Int) (maxConnRetries : Nat)
    (attempts : Nat → FetchResult) (colls : List Collection)
    (hpos : 1 ≤ maxConnRetries)
    (hfail : ∀ i < maxConnRetries, (attempts i).isFailure = true)
    (hnext : (engineNextLoop now colls).2 ≠ none) :
    (getNewEvents now maxConnRetries attempts colls).2.1 = [] ∧
    (getNewEvents now maxConnRetries attempts colls).2.2 =
      (List.range (maxConnRetries - 1)).map LogRec.warning ++
        [LogRec.error (maxConnRetries - 1), LogRec.sleepRetry] ∧
    (getNewEvents now maxConnRetries attempts colls).1 =
      colls.map (fun c => ⟨c.plugins.map (fun np =>
        if np.2.active then
          (np.1, { np.2 with backlog := np.2.backlog.filter (fun kv => !decide (kv.2 < now)) })
        else np), c.stateData⟩) := by
  have hloop := fetchAttemptLoop_all_fail maxConnRetries attempts (List.range maxConnRetries)
    (fun i hi => hfail i (List.mem_range.mp hi))
  have hredge : getNewEvents now maxConnRetries attempts colls =
      ((engineNextLoop now colls).1, [],
        (List.range maxConnRetries).foldr
          (fun i acc => writeConnectionAttemptLog maxConnRetries i ++ acc) []) := by
    unfold getNewEvents
    show (match (engineNextLoop now colls).2 with
      | none => ((engineNextLoop now colls).1, [], [])
      | some _ =>
        ((engineNextLoop now colls).1,
          (fetchAttemptLoop maxConnRetries attempts (List.range maxConnRetries)).1,
          (fetchAttemptLoop maxConnRetries attempts (List.range maxConnRetries)).2)) = _
    cases hr : (engineNextLoop now colls).2 with
    | none => exact absurd hr hnext
    | some n =>
      rw [hloop]
  rw [hredge]
  refine ⟨rfl, ?_, ?_⟩
  · exact foldr_writeLog_range maxConnRetries hpos
  · show (engineNextLoop now colls).1 = _
    rw [engineNextLoop_fst]
    simp only [collectionNext_state]

def c6WColls : List Collection := [⟨[("p", ⟨some 10, [], true, []⟩)], []⟩]

/-- Witness: two failing attempts on a one-plugin collection with an empty
backlog yield an empty batch and the warning/error/sleep log shape. -/
theorem c6_fetch_exhausted_witness :
    (getNewEvents 0 2 (fun _ => FetchResult.socketError "down") c6WColls).2.1 = [] ∧
    (getNewEvents 0 2 (fun _ => FetchResult.socketError "down") c6WColls).2.2 =
      (List.range 1).map LogRec.warning ++ [LogRec.error 1, LogRec.sleepRetry] := by
  have h := c6_fetch_exhausted 0 2 (fun _ => FetchResult.socketError "down") c6WColls
    (by omega) (fun i _ => rfl)
    (by rw [show (engineNextLoop 0 c6WColls).2 = some 11 from rfl]; simp)
  exact ⟨h.1, h.2.1⟩

/-- The two accepted shapes of a `Plugin.setState` argument: a bare int or a
`(lastId, backlog)` tuple. -/
inductive PluginStateArg where
  | int (n : Nat)
  | tup (lastId : Option Nat) (backlog : Backlog)

/-- `Plugin.setState` from `src/src/plugin.py`: an int sets only
`_lastEventId` (the backlog is left as it is); a tuple sets both fields. -/
def pluginSetState (p : PluginState) : PluginStateArg → PluginState
  | .int n => { p with lastEventId := some n }
  | .tup l b => { p with lastEventId := l, backlog := b }

/-- Python `d[k] = v` on a string-keyed dict. -/
def assocUpdate {α : Type} : List (String × α) → String → α → List (String × α)
  | [], k, v => [(k, v)]
  | kv :: rest, k, v => if kv.1 = k then (k, v) :: rest else kv :: assocUpdate rest k v

/-- Python `d.get(k)` on a string-keyed dict. -/
def assocGet {α : Type} : List (String × α) → String → Option α
  | [], _ => none
  | kv :: rest, k => if kv.1 = k then some kv.2 else assocGet rest k

/-- The two accepted shapes of a `PluginCollection.setState` argument. -/
inductive CollectionStateArg where
  | int (n : Nat)
  | map (m : List (String × (Option Nat × Backlog)))

/-- `PluginCollection.setState` from `src/src/pluginCollection.py`: an int is
pushed into every plugin and `_stateData` is refreshed from the plugins; a
mapping replaces `_stateData` wholesale and the state of every plugin whose
name appears in it is set (names that match no present plugin simply stay
in `_stateData`). -/
def collectionSetState (c : Collection) : CollectionStateArg → Collection
  | .int n =>
    let r := c.plugins.foldl
      (fun (acc : List (String × PluginState) × List (String × (Option Nat × Backlog))) np =>
        let p2 := pluginSetState np.2 (.int n)
        (acc.1 ++ [(np.1, p2)], assocUpdate acc.2 np.1 (p2.lastEventId, p2.backlog)))
      ([], c.stateData)
    ⟨r.1, r.2⟩
  | .map m =>
    ⟨c.plugins.map (fun np =>
      match assocGet m np.1 with
      | some st => (np.1, pluginSetState np.2 (.tup st.1 st.2))
      | none => np), m⟩

theorem collectionSetState_int_plugins (c : Collection) (n : Nat) :
    (collectionSetState c (.int n)).plugins =
      c.plugins.map (fun np => (np.1, { np.2 with lastEventId := some n })) := by
  show (c.plugins.foldl
      (fun (acc : List (String × PluginState) × List (String × (Option Nat × Backlog))) np =>
        (acc.1 ++ [(np.1, pluginSetState np.2 (.int n))],
          assocUpdate acc.2 np.1
            ((pluginSetState np.2 (.int n)).lastEventId, (pluginSetState np.2 (.int n)).backlog)))
      ([], c.stateData)).1 = _
  have hgen : ∀ (ps : List (String × PluginState))
      (acc : List (String × PluginState) × List (String × (Option Nat × Backlog))),
      (ps.foldl
        (fun (acc : List (String × PluginState) × List (String × (Option Nat × Backlog))) np =>
          (acc.1 ++ [(np.1, pluginSetState np.2 (.int n))],
            assocUpdate acc.2 np.1
              ((pluginSetState np.2 (.int n)).lastEventId,
                (pluginSetState np.2 (.int n)).backlog))) acc).1
        = acc.1 ++ ps.map (fun np => (np.1, { np.2 with lastEventId := some n })) := by
    intro ps
    induction ps with
    | nil => intro acc; simp
    | cons np rest ih =>
      intro acc
      rw [List.foldl_cons, ih]
      simp [pluginSetState]
  rw [hgen]
  simp

def c7Coll : Collection := ⟨[("p", ⟨some 3, [(5, 9)], true, []⟩)], []⟩

/-- Claim C7 counterexample: `setState` with a bare integer 7 on a plugin
holding backlog entry `(5, 9)` sets `lastId` to 7 but leaves the backlog
non-empty, where the claim requires `backlog = ∅`. -/
theorem c7_counterexample :
    ((collectionSetState c7Coll (.int 7)).plugins.map
      (fun np => (np.2.lastEventId, np.2.backlog))) = [(some 7, [(5, 9)])] ∧
    ([((5 : Nat), (9 : Int))] : Backlog) ≠ [] := by
  constructor
  · rw [collectionSetState_int_plugins]
    rfl
  · simp

/-- Claim C7 (amended): `setState` with a bare integer `s` sets every
plugin's `lastId` to `s` and leaves each backlog unchanged (it does not
clear it); `setState` with a mapping replaces `_stateData` by the mapping
(so entries for unknown plugin names are retained until a matching plugin
appears) and sets the state of every present plugin named in it, leaving
plugins not named in the mapping untouched. -/
theorem c7_set_state (c : Collection) :
    (∀ n : Nat, (collectionSetState c (.int n)).plugins
        = c.plugins.map (fun np => (np.1, { np.2 with lastEventId := some n }))) ∧
    (∀ m, (collectionSetState c (.map m)).stateData = m ∧
      ∀ np ∈ c.plugins,
        (assocGet m np.1 = none → np ∈ (collectionSetState c (.map m)).plugins) ∧
        (∀ st, assocGet m np.1 = some st →
          (np.1, { np.2 with lastEventId := st.1, backlog := st.2 })
            ∈ (collectionSetState c (.map m)).plugins)) := by
  refine ⟨collectionSetState_int_plugins c, ?_⟩
  intro m
  refine ⟨rfl, ?_⟩
  intro np hnp
  constructor
  · intro hget
    show np ∈ c.plugins.map (fun np =>
      match assocGet m np.1 with
      | some st => (np.1, pluginSetState np.2 (.tup st.1 st.2))
      | none => np)
    refine List.mem_map.mpr ⟨np, hnp, ?_⟩
    rw [hget]
  · intro st hget
    show _ ∈ c.plugins.map (fun np =>
      match assocGet m np.1 with
      | some st => (np.1, pluginSetState np.2 (.tup st.1 st.2))
      | none => np)
    refine List.mem_map.mpr ⟨np, hnp, ?_⟩
    rw [hget]
    rfl

/-- Witness: the amended claim at a one-plugin collection, for both the
integer shape and the mapping shape. -/
theorem c7_set_state_witness :
    (collectionSetState c7Coll (.int 2)).plugins =
      c7Coll.plugins.map (fun np => (np.1, { np.2 with lastEventId := some 2 })) ∧
    (collectionSetState c7Coll (.map [("p", (some 4, [(1, 2)]))])).stateData
      = [("p", (some 4, [(1, 2)]))] ∧
    ("p", (⟨some 4, [(1, 2)], true, []⟩ : PluginState))
      ∈ (collectionSetState c7Coll (.map [("p", (some 4, [(1, 2)]))])).plugins := by
  have h := c7_set_state c7Coll
  have h2 := (h.2 [("p", (some 4, [(1, 2)]))]).2 ("p", ⟨some 3, [(5, 9)], true, []⟩)
    (List.mem_singleton.mpr rfl)
  exact ⟨h.1 2, (h.2 [("p", (some 4, [(1, 2)]))]).1, h2.2 (some 4, [(1, 2)]) rfl⟩

/-- Python `str.strip()` on the characters of a line. -/
def stripChars (l : List Char) : List Char :=
  ((l.dropWhile Char.isWhitespace).reverse.dropWhile Char.isWhitespace).reverse

/-- Decimal value of a digit string, as Python `int()` computes it. -/
def decimalVal (l : List Char) : Nat := l.foldl (fun n c => n * 10 + (c.toNat - 48)) 0

/-- The legacy fallback branch of `Engine._loadEventIdData`: when the pickled
blob is unreadable, the file is reopened, its first line is read and
stripped, and if it `isdigit()` (non-empty, all digits) its integer value is
pushed into every collection via `setState`. -/
def loadLegacyEventIdData (firstLine : List Char) (colls : List Collection) :
    List Collection :=
  let line := stripChars firstLine
  if !line.isEmpty && line.all Char.isDigit then
    colls.map (fun c => collectionSetState c (.int (decimalVal line)))
  else colls

/-- Claim C8: when the persisted blob is unreadable and the file's first
line, stripped, is a non-empty string of decimal digits with value `n`,
every plugin of every collection is seeded with `lastId = n`. -/
theorem c8_legacy_cursor (firstLine : List Char) (colls : List Collection)
    (hne : (stripChars firstLine).isEmpty = false)
    (hdig : (stripChars firstLine).all Char.isDigit = true) :
    ∀ c ∈ loadLegacyEventIdData firstLine colls, ∀ np ∈ c.plugins,
      np.2.lastEventId = some (decimalVal (stripChars firstLine)) := by
  intro c hc np hnp
  unfold loadLegacyEventIdData at hc
  rw [if_pos (by rw [hne, hdig]; rfl)] at hc
  obtain ⟨c0, hc0, hcc⟩ := List.mem_map.mp hc
  subst hcc
  have hpl := collectionSetState_int_plugins c0 (decimalVal (stripChars firstLine))
  rw [hpl] at hnp
  obtain ⟨np0, hnp0, hnpp⟩ := List.mem_map.mp hnp
  rw [← hnpp]

def c8Colls : List Collection := [⟨[("q", ⟨none, [], true, []⟩)], []⟩]

def c8After : Collection := ⟨[("q", ⟨some 42, [], true, []⟩)], [("q", (some 42, []))]⟩

/-- Witness: loading the legacy first line " 42\n" seeds the plugin with 42. -/
theorem c8_legacy_cursor_witness :
    ("q", (⟨some 42, [], true, []⟩ : PluginState)).2.lastEventId
      = some (decimalVal (stripChars " 42\n".data)) := by
  have hmem : c8After ∈ loadLegacyEventIdData " 42\n".data c8Colls := by
    rw [show loadLegacyEventIdData " 42\n".data c8Colls = [c8After] from by
      unfold loadLegacyEventIdData
      rw [if_pos (by decide)]
      rfl]
    exact List.mem_singleton.mpr rfl
  have hmem2 : ("q", (⟨some 42, [], true, []⟩ : PluginState)) ∈ c8After.plugins :=
    List.mem_singleton.mpr rfl
  exact c8_legacy_cursor " 42\n".data c8Colls (by decide) (by decide) c8After hmem _ hmem2

/-- The names bound on a `Registrar` instance by `__init__`
(its instance `__dict__`), from `src/src/registrar.py`. -/
def registrarInstanceDict : List String := ["_plugin", "_allowed"]

/-- The names defined in the `Registrar` class body (found by normal class
attribute lookup).  Names inherited from `object` are outside the model. -/
def registrarClassDict : List String := ["__init__", "getLogger", "__getattr__"]

/-- The `self._allowed` list set by `Registrar.__init__`. -/
def registrarAllowed : List String := ["logger", "setEmails", "registerCallback"]

/-- Python attribute access on a `Registrar`: normal lookup (instance dict,
then class dict) wins first; `__getattr__` runs only when that fails, and it
delegates names in `self._allowed` to the plugin and raises `AttributeError`
for everything else.  The result is whether the access succeeds. -/
def registrarGetattrSucceeds (allowed : List String) (name : String) : Bool :=
  if registrarInstanceDict.contains name then true
  else if registrarClassDict.contains name then true
  else allowed.contains name

/-- Claim C9 counterexample: `getLogger` is not one of the three names the
claim allows, yet accessing it succeeds (it is a method of the class, so
`__getattr__` never runs and no AttributeError is raised). -/
theorem c9_counterexample :
    registrarGetattrSucceeds registrarAllowed "getLogger" = true ∧
    registrarAllowed.contains "getLogger" = false := ⟨rfl, rfl⟩

/-- Claim C9 (amended): besides the three delegated names `logger`,
`setEmails` and `registerCallback`, a `Registrar` also exposes the names
defined on the object itself — the `getLogger` method, `__init__`,
`__getattr__`, and the fields `_plugin` and `_allowed`; accessing any name
outside these fails with an AttributeError. -/
theorem c9_registrar_exposure (name : String) :
    registrarGetattrSucceeds registrarAllowed name = false ↔
      name ∉ (["logger", "setEmails", "registerCallback", "getLogger",
        "__init__", "__getattr__", "_plugin", "_allowed"] : List String) := by
  unfold registrarGetattrSucceeds registrarInstanceDict registrarClassDict registrarAllowed
  by_cases h1 : name ∈ (["_plugin", "_allowed"] : List String)
  · rw [if_pos (by simpa using h1)]
    simp at h1
    rcases h1 with h1 | h1 <;> subst h1 <;> simp
  · rw [if_neg (by simpa using h1)]
    by_cases h2 : name ∈ (["__init__", "getLogger", "__getattr__"] : List String)
    · rw [if_pos (by simpa using h2)]
      simp at h2
      rcases h2 with h2 | h2 | h2 <;> subst h2 <;> simp
    · rw [if_neg (by simpa using h2)]
      simp at h1 h2
      simp [h1, h2]

/-- A registered batch callback (`BatchCallback`); the user function is
abstracted by `raises` on the list of dispatched event ids. -/
structure BatchCallbackState where
  name : String
  matchEvents : Option EventFilter
  stopOnError : Bool
  active : Bool
  raises : List Nat → Bool

/-- `BatchCallback.process` from `src/src/callback.py`: run the user function
once on the filtered batch, catch any exception, deactivate on error when
`stopOnError`; the return value is the post-call `active` flag. -/
def batchCbProcess (cb : BatchCallbackState) (ids : List Nat) : BatchCallbackState :=
  if cb.raises ids && cb.stopOnError then { cb with active := false } else cb

/-- One batch dispatch: which callback received which event ids. -/
structure BatchDispatchRec where
  callbackName : String
  eventIds : List Nat
deriving DecidableEq, Repr

/-- The loop of `BatchPlugin._process`: each active callback receives the
events of the batch that its filter matches (and is skipped entirely when
none match); a false return deactivates the plugin and breaks the loop. -/
def batchRunCallbacks : List BatchCallbackState → List Event →
    List BatchCallbackState × Bool × List BatchDispatchRec
  | [], _ => ([], false, [])
  | cb :: rest, events =>
    if cb.active then
      if (events.filter (fun e => canProcess cb.matchEvents e)).isEmpty then
        (cb :: (batchRunCallbacks rest events).1,
          (batchRunCallbacks rest events).2.1, (batchRunCallbacks rest events).2.2)
      else
        if (batchCbProcess cb ((events.filter (fun e => canProcess cb.matchEvents e)).map
            (fun e => e.id))).active then
          (batchCbProcess cb ((events.filter (fun e => canProcess cb.matchEvents e)).map
              (fun e => e.id)) :: (batchRunCallbacks rest events).1,
            (batchRunCallbacks rest events).2.1,
            (⟨cb.name, (events.filter (fun e => canProcess cb.matchEvents e)).map
              (fun e => e.id)⟩ : BatchDispatchRec) :: (batchRunCallbacks rest events).2.2)
        else
          (batchCbProcess cb ((events.filter (fun e => canProcess cb.matchEvents e)).map
              (fun e => e.id)) :: rest, true,
            [⟨cb.name, (events.filter (fun e => canProcess cb.matchEvents e)).map
              (fun e => e.id)⟩])
    else
      (cb :: (batchRunCallbacks rest events).1,
        (batchRunCallbacks rest events).2.1, (batchRunCallbacks rest events).2.2)

/-- The mutable state of a `BatchPlugin`. -/
structure BatchPluginState where
  lastEventId : Option Nat
  backlog : Backlog
  active : Bool
  callbacks : List BatchCallbackState

/-- The per-event replay bookkeeping of `BatchPlugin.process`:
`del self._backlog[event["id"]]` followed by `self._updateLastEventId(event)`. -/
def replayStep (now : Int) (cur : Option Nat × Backlog) (e : Event) :
    Option Nat × Backlog :=
  updateCursor now (cur.1, cur.2.erase e.id) e

/-- `BatchPlugin.process` from `src/src/plugin.py`. -/
def batchPluginProcess (now : Int) (st : BatchPluginState) (events : List Event) :
    BatchPluginState × List BatchDispatchRec :=
  if !(events.filter (fun e => st.backlog.hasKey e.id)).isEmpty then
    if (if (batchRunCallbacks st.callbacks events).2.1 then false else st.active) then
      (⟨((events.filter (fun e => st.backlog.hasKey e.id)).foldl (replayStep now)
            (st.lastEventId, st.backlog)).1,
        ((events.filter (fun e => st.backlog.hasKey e.id)).foldl (replayStep now)
            (st.lastEventId, st.backlog)).2,
        (if (batchRunCallbacks st.callbacks events).2.1 then false else st.active),
        (batchRunCallbacks st.callbacks events).1⟩,
        (batchRunCallbacks st.callbacks events).2.2)
    else
      (⟨st.lastEventId, st.backlog,
        (if (batchRunCallbacks st.callbacks events).2.1 then false else st.active),
        (batchRunCallbacks st.callbacks events).1⟩,
        (batchRunCallbacks st.callbacks events).2.2)
  else if !(events.filter (fun e =>
      match st.lastEventId with | some l => decide (e.id ≤ l) | none => false)).isEmpty then
    (st, [])
  else
    if (if (batchRunCallbacks st.callbacks events).2.1 then false else st.active) then
      (⟨(events.foldl (updateCursor now) (st.lastEventId, st.backlog)).1,
        (events.foldl (updateCursor now) (st.lastEventId, st.backlog)).2,
        (if (batchRunCallbacks st.callbacks events).2.1 then false else st.active),
        (batchRunCallbacks st.callbacks events).1⟩,
        (batchRunCallbacks st.callbacks events).2.2)
    else
      (⟨st.lastEventId, st.backlog,
        (if (batchRunCallbacks st.callbacks events).2.1 then false else st.active),
        (batchRunCallbacks st.callbacks events).1⟩,
        (batchRunCallbacks st.callbacks events).2.2)

theorem batchRunCallbacks_no_failure (events : List Event) :
    ∀ cbs : List BatchCallbackState,
      (∀ cb ∈ cbs, cb.raises ((events.filter (fun e => canProcess cb.matchEvents e)).map
        (fun e => e.id)) = false) →
      (batchRunCallbacks cbs events).2.1 = false ∧
      (∀ cb ∈ cbs, cb.active = true →
        events.filter (fun e => canProcess cb.matchEvents e) ≠ [] →
        (⟨cb.name, (events.filter (fun e => canProcess cb.matchEvents e)).map (fun e => e.id)⟩ :
          BatchDispatchRec) ∈ (batchRunCallbacks cbs events).2.2) := by
  intro cbs
  induction cbs with
  | nil =>
    intro _
    exact ⟨rfl, by simp⟩
  | cons cb rest ih =>
    intro hok
    have hcb := hok cb (List.mem_cons_self _ _)
    have hrest := ih (fun cb2 h2 => hok cb2 (List.mem_cons_of_mem _ h2))
    have hcb2 : batchCbProcess cb ((events.filter (fun e => canProcess cb.matchEvents e)).map
        (fun e => e.id)) = cb := by
      simp [batchCbProcess, hcb]
    by_cases ha : cb.active = true
    · by_cases hev : (events.filter (fun e => canProcess cb.matchEvents e)).isEmpty = true
      · have heq : batchRunCallbacks (cb :: rest) events =
            (cb :: (batchRunCallbacks rest events).1,
              (batchRunCallbacks rest events).2.1, (batchRunCallbacks rest events).2.2) := by
          simp only [batchRunCallbacks]
          rw [if_pos ha, if_pos hev]
        rw [heq]
        refine ⟨hrest.1, ?_⟩
        intro cb3 hcb3 hact3 hne3
        cases List.mem_cons.mp hcb3 with
        | inl h3 =>
          subst h3
          exact absurd (List.isEmpty_iff.mp hev) hne3
        | inr h3 =>
          exact hrest.2 cb3 h3 hact3 hne3
      · have heq : batchRunCallbacks (cb :: rest) events =
            (cb :: (batchRunCallbacks rest events).1,
              (batchRunCallbacks rest events).2.1,
              (⟨cb.name, (events.filter (fun e => canProcess cb.matchEvents e)).map
                (fun e => e.id)⟩ : BatchDispatchRec) ::
                (batchRunCallbacks rest events).2.2) := by
          simp only [batchRunCallbacks]
          rw [if_pos ha, if_neg hev, hcb2, if_pos ha]
        rw [heq]
        refine ⟨hrest.1, ?_⟩
        intro cb3 hcb3 hact3 hne3
        cases List.mem_cons.mp hcb3 with
        | inl h3 =>
          subst h3
          exact List.mem_cons_self _ _
        | inr h3 =>
          exact List.mem_cons_of_mem _ (hrest.2 cb3 h3 hact3 hne3)
    · have heq : batchRunCallbacks (cb :: rest) events =
          (cb :: (batchRunCallbacks rest events).1,
            (batchRunCallbacks rest events).2.1, (batchRunCallbacks rest events).2.2) := by
        simp only [batchRunCallbacks]
        rw [if_neg ha]
      rw [heq]
      refine ⟨hrest.1, ?_⟩
      intro cb3 hcb3 hact3 hne3
      cases List.mem_cons.mp hcb3 with
      | inl h3 =>
        subst h3
        exact absurd hact3 ha
      | inr h3 =>
        exact hrest.2 cb3 h3 hact3 hne3

theorem replayStep_fst (now : Int) (cur : Option Nat × Backlog) (e : Event) :
    (replayStep now cur e).1 = some e.id := rfl

theorem replayStep_hasKey (now : Int) (cur : Option Nat × Backlog) (e : Event) (k : Nat)
    (h : (replayStep now cur e).2.hasKey k = true) :
    (¬ k = e.id ∧ cur.2.hasKey k = true) ∨ ∃ l, cur.1 = some l ∧ l < k ∧ k < e.id := by
  have h2 := updateCursor_hasKey now cur.1 (cur.2.erase e.id) e k h
  cases h2 with
  | inl h2 =>
    rw [Backlog.hasKey_erase] at h2
    simp only [Bool.and_eq_true, Bool.not_eq_eq_eq_not, Bool.not_true,
      decide_eq_false_iff_not] at h2
    exact Or.inl ⟨fun hk => h2.2 (hk ▸ rfl), h2.1⟩
  | inr h2 => exact Or.inr h2

/-- The replay loop of `BatchPlugin.process` over an ascending list of
backlog events: each replayed id ends up absent from the backlog, and the
cursor ends at the last replayed event's id. -/
theorem replay_fold_spec (now : Int) :
    ∀ (L : List Event) (cur : Option Nat × Backlog) (D : List Nat),
      L.Pairwise (fun a b => a.id < b.id) →
      (∀ d ∈ D, cur.2.hasKey d = false) →
      (∀ d ∈ D, ∀ e ∈ L, d < e.id) →
      (∀ d ∈ D, ∀ l, cur.1 = some l → d ≤ l) →
      ((∀ d ∈ D, (L.foldl (replayStep now) cur).2.hasKey d = false) ∧
        (∀ e ∈ L, (L.foldl (replayStep now) cur).2.hasKey e.id = false) ∧
        (L = [] → L.foldl (replayStep now) cur = cur) ∧
        (∀ elast, L.getLast? = some elast →
          (L.foldl (replayStep now) cur).1 = some elast.id)) := by
  intro L
  induction L with
  | nil =>
    intro cur D _ hD _ _
    exact ⟨fun d hd => hD d hd, by simp, fun _ => rfl, by simp⟩
  | cons e rest ih =>
    intro cur D hpw hD hDlt hDle
    rw [List.foldl_cons]
    have hpw2 := List.pairwise_cons.mp hpw
    have hcur1D : ∀ d ∈ (e.id :: D), (replayStep now cur e).2.hasKey d = false := by
      intro d hd
      cases hkC : (replayStep now cur e).2.hasKey d with
      | false => rfl
      | true =>
        exfalso
        have hstep := replayStep_hasKey now cur e d hkC
        cases List.mem_cons.mp hd with
        | inl hde =>
          subst hde
          cases hstep with
          | inl h3 => exact h3.1 rfl
          | inr h3 =>
            obtain ⟨l, _, _, h4⟩ := h3
            omega
        | inr hdD =>
          cases hstep with
          | inl h3 =>
            rw [hD d hdD] at h3
            exact absurd h3.2 (by simp)
          | inr h3 =>
            obtain ⟨l, hl, hlk, _⟩ := h3
            have := hDle d hdD l hl
            omega
    have hlt : ∀ d ∈ (e.id :: D), ∀ e2 ∈ rest, d < e2.id := by
      intro d hd e2 he2
      cases List.mem_cons.mp hd with
      | inl hde =>
        subst hde
        exact hpw2.1 e2 he2
      | inr hdD => exact hDlt d hdD e2 (List.mem_cons_of_mem _ he2)
    have hle : ∀ d ∈ (e.id :: D), ∀ l, (replayStep now cur e).1 = some l → d ≤ l := by
      intro d hd l hl
      rw [replayStep_fst] at hl
      injection hl with hl
      subst hl
      cases List.mem_cons.mp hd with
      | inl hde => omega
      | inr hdD => exact le_of_lt (hDlt d hdD e (List.mem_cons_self _ _))
    obtain ⟨ihD, ihE, ihNil, ihLast⟩ :=
      ih (replayStep now cur e) (e.id :: D) hpw2.2 hcur1D hlt hle
    refine ⟨fun d hd => ihD d (List.mem_cons_of_mem _ hd), ?_, ?_, ?_⟩
    · intro e2 he2
      cases List.mem_cons.mp he2 with
      | inl h3 =>
        subst h3
        exact ihD e2.id (List.mem_cons_self _ _)
      | inr h3 => exact ihE e2 h3
    · intro h3
      exact absurd h3 (by simp)
    · intro elast hlast
      cases hrest : rest with
      | nil =>
        subst hrest
        have hfold := ihNil rfl
        rw [hfold]
        have helast : elast = e := by
          rw [show ([e] : List Event).getLast? = some e from rfl] at hlast
          injection hlast with h4
          exact h4.symm
        subst helast
        rfl
      | cons e2 rest2 =>
        subst hrest
        apply ihLast
        rw [show (e :: e2 :: rest2).getLast? = (e2 :: rest2).getLast? from rfl] at hlast
        exact hlast

/-- Claim C10: in batch mode, when the incoming event list contains at least
one id from the backlog (and the events arrive in ascending id order, as
the upstream delivers them, with no callback failing), `BatchPlugin.process`
dispatches the entire list in a single pass: every active callback receives
the whole batch filtered only by its `canProcess` filter, so events with
`id ≤ lastId` that would otherwise be dropped as too old are included; only
then are the backlog ids of the batch erased and the advance step run per
replayed event, leaving the cursor at the last replayed backlog event's id. -/
theorem c10_batch_backlog (now : Int) (st : BatchPluginState) (events : List Event)
    (hb : events.filter (fun e => st.backlog.hasKey e.id) ≠ [])
    (hactive : st.active = true)
    (hasc : events.Pairwise (fun a b => a.id < b.id))
    (hok : ∀ cb ∈ st.callbacks,
      cb.raises ((events.filter (fun e => canProcess cb.matchEvents e)).map
        (fun e => e.id)) = false) :
    (∀ cb ∈ st.callbacks, cb.active = true →
      events.filter (fun e => canProcess cb.matchEvents e) ≠ [] →
      (⟨cb.name, (events.filter (fun e => canProcess cb.matchEvents e)).map (fun e => e.id)⟩ :
        BatchDispatchRec) ∈ (batchPluginProcess now st events).2) ∧
    (∀ e ∈ events, st.backlog.hasKey e.id = true →
      (batchPluginProcess now st events).1.backlog.hasKey e.id = false) ∧
    (∀ elast, (events.filter (fun e => st.backlog.hasKey e.id)).getLast? = some elast →
      (batchPluginProcess now st events).1.lastEventId = some elast.id) := by
  obtain ⟨hfail, htrace⟩ := batchRunCallbacks_no_failure events st.callbacks hok
  have hne : (events.filter (fun e => st.backlog.hasKey e.id)).isEmpty = false := by
    cases hl : events.filter (fun e => st.backlog.hasKey e.id) with
    | nil => exact absurd hl hb
    | cons a l => rfl
  have hmain : batchPluginProcess now st events =
      (⟨((events.filter (fun e => st.backlog.hasKey e.id)).foldl (replayStep now)
            (st.lastEventId, st.backlog)).1,
        ((events.filter (fun e => st.backlog.hasKey e.id)).foldl (replayStep now)
            (st.lastEventId, st.backlog)).2,
        st.active, (batchRunCallbacks st.callbacks events).1⟩,
        (batchRunCallbacks st.callbacks events).2.2) := by
    unfold batchPluginProcess
    rw [hne]
    rw [hfail]
    rw [hactive]
    simp
  have hfold := replay_fold_spec now (events.filter (fun e => st.backlog.hasKey e.id))
    (st.lastEventId, st.backlog) [] (hasc.filter _) (by simp) (by simp) (by simp)
  refine ⟨?_, ?_, ?_⟩
  · intro cb hcb hact hne2
    rw [hmain]
    exact htrace cb hcb hact hne2
  · intro e he hkey
    rw [hmain]
    exact hfold.2.1 e (List.mem_filter.mpr ⟨he, hkey⟩)
  · intro elast hlast
    rw [hmain]
    exact hfold.2.2.2 elast hlast

def c10Cb : BatchCallbackState := ⟨"B", none, false, true, fun _ => false⟩

def c10State : BatchPluginState := ⟨some 14, [(11, 100)], true, [c10Cb]⟩

def c10E11 : Event := ⟨11, "Shotgun_Shot_Change", "", 0⟩

def c10E12 : Event := ⟨12, "Shotgun_Shot_Change", "", 0⟩

def c10Events : List Event := [c10E11, c10E12]

/-- Witness: the batch [11, 12] against cursor 14 with backlog {11}: the
whole batch, the too-old event 12 included, is dispatched to the callback;
11 is then removed from the backlog and the cursor ends at 11. -/
theorem c10_batch_backlog_witness :
    (⟨"B", [11, 12]⟩ : BatchDispatchRec) ∈ (batchPluginProcess 0 c10State c10Events).2 ∧
    (batchPluginProcess 0 c10State c10Events).1.backlog.hasKey 11 = false ∧
    (batchPluginProcess 0 c10State c10Events).1.lastEventId = some 11 := by
  have h := c10_batch_backlog 0 c10State c10Events (by decide) rfl (by decide)
    (by
      intro cb hcb
      rw [show c10State.callbacks = [c10Cb] from rfl, List.mem_singleton] at hcb
      subst hcb
      rfl)
  refine ⟨?_, ?_, ?_⟩
  · exact h.1 c10Cb (List.mem_singleton.mpr rfl) rfl (by decide)
  · exact h.2.1 c10E11 (by decide) (by decide)
  · exact h.2.2 c10E11 rfl

end ShotgunEvents